import Mathlib

/-!
Verification of the giffy GIF decoder (Rust) against its natural-language
specification.  The Rust sources are shallowly embedded: machine integers
become `Nat` (with explicit masking where u8/u16 overflow matters), byte
streams become `List Nat`, fallible code returns `Except String`, and the
`loop`s of the source become fuel-indexed structural recursion (the fuel
chosen at each call site is large enough for the loop's own termination
argument: every iteration consumes at least one bit or one byte).
-/

set_option maxRecDepth 10000

namespace Giffy

/-- Embedding of `util.rs`: `Color(u8, u8, u8)`, channels R, G, B. -/
structure Color where
  r : Nat
  g : Nat
  b : Nat
deriving DecidableEq, Repr

/-! ## decompressor.rs: `CodeReader` (the bit reader) -/

/-- State of `CodeReader` from `decompressor.rs`: the byte slice, the current
byte index, and how many bits of the current byte are still unconsumed. -/
structure CodeReader where
  data : List Nat
  index : Nat
  remaining_bits : Nat
deriving DecidableEq, Repr

/-- `CodeReader::new`: start at byte 0 with all 8 bits remaining. -/
def CodeReader.new (data : List Nat) : CodeReader :=
  ⟨data, 0, 8⟩

/-- The `loop` of `CodeReader::read`, lines 233-264 of `decompressor.rs`.
Arguments mirror the Rust locals: `bits` still wanted, `acc` bits already
produced, `result` the value so far, `byte` the pre-shifted current byte,
`index`/`rb` the reader position.  The Rust masks `!(!0u8 << rb)` (for
`rb < 8`) and `!0u8` (for `rb = 8`) both equal `2^rb - 1`; `result` is a
`u16`, hence the `% 65536` on the or-ed in chunk.  The loop terminates
because each pass consumes `rb ≥ 1` wanted bits; `fuel = bits + 1` at the
call site is always sufficient. -/
def CodeReader.readGo (data : List Nat) (fuel bits acc result byte index rb : Nat) :
    Option (Nat × Nat × Nat) :=
  match fuel with
  | 0 => none
  | fuel + 1 =>
    if rb ≤ bits then
      let mask := if rb = 8 then 255 else 2 ^ rb - 1
      let result' := result ||| (((byte &&& mask) <<< acc) % 65536)
      let acc' := acc + rb
      let bits' := bits - rb
      let index' := index + 1
      if index' < data.length then
        CodeReader.readGo data fuel bits' acc' result' (data.getD index' 0) index' 8
      else if 0 < bits' then
        none
      else
        CodeReader.readGo data fuel bits' acc' result' byte index' 8
    else
      if bits ≠ 0 then
        some (result ||| (((byte &&& (2 ^ bits - 1)) <<< acc) % 65536), index, rb - bits)
      else
        some (result, index, rb)

/-- `CodeReader::read` (`decompressor.rs` lines 224-267): read `bits` bits
LSB-first, spanning bytes low-byte-first; `none` when the stream is
exhausted before `bits` bits are available. -/
def CodeReader.read (bits : Nat) (s : CodeReader) : Option (Nat × CodeReader) :=
  if s.data.length ≤ s.index then
    none
  else
    match CodeReader.readGo s.data (bits + 1) bits 0 0
        ((s.data.getD s.index 0) >>> (8 - s.remaining_bits)) s.index s.remaining_bits with
    | none => none
    | some (r, i, rb) => some (r, ⟨s.data, i, rb⟩)

/-- Number of unconsumed bits in a reader state. -/
def CodeReader.bitsRemaining (s : CodeReader) : Nat :=
  if s.data.length ≤ s.index then 0 else s.remaining_bits + 8 * (s.data.length - s.index - 1)

/-- Number of bits already consumed from the stream. -/
def CodeReader.consumed (s : CodeReader) : Nat :=
  8 * s.index + (8 - s.remaining_bits)

/-- Bit `p` of the whole stream, counting LSB-first inside each byte and
bytes in order (the GIF LZW packing order). -/
def streamBit (data : List Nat) (p : Nat) : Nat :=
  ((data.getD (p / 8) 0) >>> (p % 8)) % 2

/-- The value of the `w` bits of the stream starting at bit position `p`,
assembled LSB-first. -/
def bitsValue (data : List Nat) (p w : Nat) : Nat :=
  ∑ i ∈ Finset.range w, streamBit data (p + i) * 2 ^ i

/-- Well-formedness of a reader state: a partially consumed current byte and
genuine bytes in the buffer. -/
def CodeReader.WF (s : CodeReader) : Prop :=
  1 ≤ s.remaining_bits ∧ s.remaining_bits ≤ 8 ∧ ∀ b ∈ s.data, b < 256

/- The Rust unit test `test_code_reader_read` replayed on the embedding. -/
example :
    let d := [0x5D, 0x5D, 0x5D, 0x5D, 0x5D, 0xF5, 0xB6, 0x66, 0xB6, 0x66, 0x54]
    (CodeReader.read 3 (CodeReader.new d)).map Prod.fst = some 0b101 ∧
    (CodeReader.read 3 ⟨d, 0, 5⟩).map Prod.fst = some 0b011 ∧
    (CodeReader.read 3 ⟨d, 0, 2⟩).map Prod.fst = some 0b101 ∧
    (CodeReader.read 4 ⟨d, 1, 7⟩).map Prod.fst = some 0b1110 ∧
    (CodeReader.read 12 ⟨d, 9, 4⟩).map Prod.fst = some 0b010101000110 := by
  refine ⟨?_, ?_, ?_, ?_, ?_⟩ <;> decide

example :
    let d := [0x5D, 0xF5]
    (CodeReader.read 16 (CodeReader.new d)).map Prod.fst = some 0xF55D ∧
    CodeReader.read 9 ⟨d, 1, 8⟩ = none := by
  constructor <;> decide

/-! ## decompressor.rs: the LZW decompressor -/

/-- `enum CodeValue` from `decompressor.rs`: a dictionary entry is either a
sequence of palette indices or a reserved single code (CLEAR / EOI). -/
inductive CodeValue
  | indices (l : List Nat)
  | single (c : Nat)
deriving DecidableEq, Repr

/-- `Decompressor::reset` (`decompressor.rs` lines 28-38), as a function of
the color-table length `n`: singleton entries `[0] … [n-1]`, then
`Single(clear_code)` and `Single(clear_code + 1)` where
`clear_code = color_table.len() = n`.  (`reset` also sets
`code_size := lzw_min_code_size + 1`; the callers below pass that width
explicitly.) -/
def Decompressor.reset (n : Nat) : List CodeValue :=
  (List.range n).map (fun i => CodeValue.indices [i]) ++
    [CodeValue.single n, CodeValue.single (n + 1)]

/-- `Decompressor::expect_clear_code` (`decompressor.rs` lines 167-180):
read one code of width `cs`; it must equal the clear code. -/
def Decompressor.expectClearCode (cs clear : Nat) (rs : CodeReader) :
    Except String CodeReader :=
  match CodeReader.read cs rs with
  | some (c, rs') =>
    if c ≠ clear then
      .error ("Invalid clear code " ++ toString c ++ ", expected: " ++ toString clear)
    else
      .ok rs'
  | none => .error ("Missing clear code " ++ toString clear)

/-- Outcome of the shared grow-the-dictionary step of
`decompress_until_clear`. -/
inductive GrowOutcome
  | cleared (rs : CodeReader)
  | grown (table : List CodeValue) (cs : Nat) (rs : CodeReader)
deriving DecidableEq, Repr

/-- The dictionary-insertion step appearing twice in
`decompress_until_clear` (`decompressor.rs` lines 100-110 and 145-155):
if the table holds `(1 << code_size) - 1` entries, either expect a CLEAR
code (at the hard maximum width 12, returning `Ok(true)` to the caller's
loop, here `.cleared`) or grow the width by one before pushing; otherwise
just push the new entry. -/
def Decompressor.growTable (table : List CodeValue) (cs clear : Nat) (rs : CodeReader)
    (entry : List Nat) : Except String GrowOutcome :=
  if table.length = (1 <<< cs) - 1 then
    if cs = 12 then
      match Decompressor.expectClearCode cs clear rs with
      | .error e => .error e
      | .ok rs' => .ok (.cleared rs')
    else
      .ok (.grown (table ++ [CodeValue.indices entry]) (cs + 1) rs)
  else
    .ok (.grown (table ++ [CodeValue.indices entry]) cs rs)

/-- Result of `decompress_until_clear`: the returned `Ok(bool)` (`again`,
true when a CLEAR code asks the caller to reset and continue), the emitted
indices, and the state threaded back. -/
structure LoopState where
  again : Bool
  result : List Nat
  rs : CodeReader
  table : List CodeValue
  cs : Nat
deriving DecidableEq, Repr

/-- The main `loop` of `Decompressor::decompress_until_clear`
(`decompressor.rs` lines 62-162).  `prev` is the previously handled code.
Rust's `self.code_table[prev]` (a panicking index, but `prev` is always in
range when reached) is rendered as `getD` with a `Single` default, which
funnels out-of-range exactly into the same error arm.  `indices[0]` is
`headD 0`; entries are never empty.  Stream exhaustion (`read` = `None`)
returns `Ok(false)` with the indices accumulated so far.  Each iteration
consumes at least one bit, so `fuel` bounded below by the remaining bit
count never runs out at the call sites below. -/
def Decompressor.ducLoop (fuel : Nat) (prev : Nat) (table : List CodeValue) (cs clear : Nat)
    (rs : CodeReader) (result : List Nat) : Except String LoopState :=
  match fuel with
  | 0 => .error "out of fuel"
  | fuel + 1 =>
    match CodeReader.read cs rs with
    | none => .ok ⟨false, result, rs, table, cs⟩
    | some (current, rs1) =>
      if current < table.length then
        match table.getD current (CodeValue.single 0) with
        | CodeValue.indices inds =>
          let result' := result ++ inds
          let k := inds.headD 0
          match table.getD prev (CodeValue.single 0) with
          | CodeValue.indices prevInds =>
            match Decompressor.growTable table cs clear rs1 (prevInds ++ [k]) with
            | .error e => .error e
            | .ok (.cleared rs2) => .ok ⟨true, result', rs2, table, cs⟩
            | .ok (.grown table' cs' rs2) =>
              Decompressor.ducLoop fuel current table' cs' clear rs2 result'
          | CodeValue.single _ =>
            .error ("Invalid prev code type " ++ toString prev)
        | CodeValue.single c =>
          if c = clear then
            .ok ⟨true, result, rs1, table, cs⟩
          else if c = clear + 1 then
            .ok ⟨false, result, rs1, table, cs⟩
          else
            .error ("Invalid single code " ++ toString c)
      else
        match table.getD prev (CodeValue.single 0) with
        | CodeValue.indices prevInds =>
          let k := prevInds.headD 0
          let output := prevInds ++ [k]
          let result' := result ++ output
          match Decompressor.growTable table cs clear rs1 output with
          | .error e => .error e
          | .ok (.cleared rs2) => .ok ⟨true, result', rs2, table, cs⟩
          | .ok (.grown table' cs' rs2) =>
            Decompressor.ducLoop fuel current table' cs' clear rs2 result'
        | CodeValue.single _ =>
          .error ("Invalid prev code: " ++ toString prev)

/-- `Decompressor::decompress_until_clear` (`decompressor.rs` lines 40-165):
read the first code (stream exhaustion is `Ok(false)`), which must denote an
`Indices` entry, emit it, then run the loop. -/
def Decompressor.decompressUntilClear (fuel : Nat) (table : List CodeValue) (cs clear : Nat)
    (rs : CodeReader) (result : List Nat) : Except String LoopState :=
  match CodeReader.read cs rs with
  | none => .ok ⟨false, result, rs, table, cs⟩
  | some (current, rs1) =>
    match table[current]? with
    | some (CodeValue.indices inds) =>
      Decompressor.ducLoop fuel current table cs clear rs1 (result ++ inds)
    | _ => .error ("Invalid code: " ++ toString current)

/-- The `while self.decompress_until_clear(..)? { self.reset(); }` loop of
`Decompressor::decompress` (`decompressor.rs` line 190): each round starts
from a freshly reset dictionary and width `m + 1`, accumulating into the
same result vector. -/
def Decompressor.outerLoop (fuel innerFuel n m : Nat) (rs : CodeReader) (result : List Nat) :
    Except String (List Nat) :=
  match fuel with
  | 0 => .error "out of fuel"
  | fuel + 1 =>
    match Decompressor.decompressUntilClear innerFuel (Decompressor.reset n) (m + 1) n rs result with
    | .error e => .error e
    | .ok ls =>
      if ls.again then
        Decompressor.outerLoop fuel innerFuel n m ls.rs ls.result
      else
        .ok ls.result

/-- `Decompressor::decompress` up to (not including) the final mapping of
indices through the color table (`decompressor.rs` lines 182-195): reset,
expect the leading CLEAR code, then run rounds until the stream ends or EOI.
`n` is the color-table length (hence also the clear code), `m` the
`lzw_min_code_size`. -/
def Decompressor.decompressIndices (data : List Nat) (n m : Nat) : Except String (List Nat) :=
  match Decompressor.expectClearCode (m + 1) n (CodeReader.new data) with
  | .error e => .error e
  | .ok rs => Decompressor.outerLoop (8 * data.length + 2) (8 * data.length + 2) n m rs []

/-- `Decompressor::decompress` (`decompressor.rs` lines 182-200).  The final
`self.color_table[*i]` is a panicking index in Rust; it is rendered total
with `getD` (the bounds invariant is proved below). -/
def Decompressor.decompress (data : List Nat) (ct : List Color) (m : Nat) :
    Except String (List Color) :=
  match Decompressor.decompressIndices data ct.length m with
  | .error e => .error e
  | .ok idxs => .ok (idxs.map (fun i => ct.getD i ⟨0, 0, 0⟩))

/-- Well-formedness of a code table with respect to the color-table length
`n`: every `Indices` entry is non-empty and all its palette indices are in
range. -/
def TableOk (n : Nat) (table : List CodeValue) : Prop :=
  ∀ l, CodeValue.indices l ∈ table → l ≠ [] ∧ ∀ x ∈ l, x < n

/-! ## parser.rs: the container parser

The byte source (`T: Read` in the source) is a `List Nat` of bytes; each
reading primitive returns the value together with the rest of the stream,
and a short read fails the way `read_exact` does. -/

/-- `Rust str::from_utf8` succeeds exactly on well-formed UTF-8; this is the
standard byte-level validation (continuation bytes `0x80-0xBF`, no
overlong forms, no surrogates, max `U+10FFFF`). -/
def utf8Cont (b : Nat) : Bool :=
  decide (128 ≤ b ∧ b ≤ 191)

/-- Strict UTF-8 validity of a byte list, the success condition of
`str::from_utf8` / `String::from_utf8` used by `parser.rs`. -/
def utf8valid : List Nat → Bool
  | [] => true
  | b :: rest =>
    if b ≤ 127 then
      utf8valid rest
    else if 194 ≤ b ∧ b ≤ 223 then
      match rest with
      | c1 :: r => if utf8Cont c1 then utf8valid r else false
      | [] => false
    else if b = 224 then
      match rest with
      | c1 :: c2 :: r =>
        if 160 ≤ c1 ∧ c1 ≤ 191 ∧ utf8Cont c2 then utf8valid r else false
      | _ => false
    else if (225 ≤ b ∧ b ≤ 236) ∨ b = 238 ∨ b = 239 then
      match rest with
      | c1 :: c2 :: r => if utf8Cont c1 ∧ utf8Cont c2 then utf8valid r else false
      | _ => false
    else if b = 237 then
      match rest with
      | c1 :: c2 :: r =>
        if 128 ≤ c1 ∧ c1 ≤ 159 ∧ utf8Cont c2 then utf8valid r else false
      | _ => false
    else if b = 240 then
      match rest with
      | c1 :: c2 :: c3 :: r =>
        if 144 ≤ c1 ∧ c1 ≤ 191 ∧ utf8Cont c2 ∧ utf8Cont c3 then utf8valid r else false
      | _ => false
    else if 241 ≤ b ∧ b ≤ 243 then
      match rest with
      | c1 :: c2 :: c3 :: r =>
        if utf8Cont c1 ∧ utf8Cont c2 ∧ utf8Cont c3 then utf8valid r else false
      | _ => false
    else if b = 244 then
      match rest with
      | c1 :: c2 :: c3 :: r =>
        if 128 ≤ c1 ∧ c1 ≤ 143 ∧ utf8Cont c2 ∧ utf8Cont c3 then utf8valid r else false
      | _ => false
    else
      false

/-- `read_u8`: one byte or `UnexpectedEof`. -/
def read_u8 : List Nat → Except String (Nat × List Nat)
  | [] => .error "Error: failed to fill whole buffer"
  | b :: r => .ok (b, r)

/-- `read_u16`: two bytes combined little-endian (the source transmutes the
2-byte buffer, which on the little-endian targets it runs on is
`lo + 256 * hi`). -/
def read_u16 : List Nat → Except String (Nat × List Nat)
  | lo :: hi :: r => .ok (lo + 256 * hi, r)
  | _ => .error "Error: failed to fill whole buffer"

/-- `read_bytes` into an `n`-byte buffer (`read_exact`). -/
def readBytes (n : Nat) (src : List Nat) : Except String (List Nat × List Nat) :=
  if src.length < n then .error "Error: failed to fill whole buffer"
  else .ok (src.take n, src.drop n)

/-- `struct Header` (`parser.rs` lines 6-10); the Rust `String`s are kept as
their UTF-8 bytes (Rust string equality is byte equality). -/
structure Header where
  sig : List Nat
  version : List Nat
deriving DecidableEq, Repr

/-- The ASCII bytes of `"GIF"`, the only accepted signature. -/
def gifSig : List Nat := [71, 73, 70]

/-- `Parser::read_header` (`parser.rs` lines 229-242): six bytes, the first
three decoded as the signature, the last three as the version; each must be
valid UTF-8 and is stored as-is. -/
def Parser.read_header (src : List Nat) : Except String (Header × List Nat) :=
  match readBytes 6 src with
  | .error e => .error e
  | .ok (buf, rest) =>
    if utf8valid (buf.take 3) then
      if utf8valid (buf.drop 3) then
        .ok (⟨buf.take 3, buf.drop 3⟩, rest)
      else
        .error "Error: invalid utf-8 sequence"
    else
      .error "Error: invalid utf-8 sequence"

/-- `chunks_exact(3)` of the raw table bytes, mapped to `Color`s
(`parser.rs` lines 287-290). -/
def chunkColors : List Nat → List Color
  | a :: b :: c :: r => ⟨a, b, c⟩ :: chunkColors r
  | _ => []

/-- `struct LogicalScreenDescriptor` (`parser.rs` lines 12-23).  The `f32`
pixel aspect ratio `(raw + 15) / 64` is exact for every byte, so it is
embedded as a rational. -/
structure LogicalScreenDescriptor where
  width : Nat
  height : Nat
  global_color_table_flag : Bool
  color_resolution : Nat
  sort_flag : Bool
  global_color_table_size : Nat
  background_color_index : Nat
  pixel_aspect_ratio : ℚ
  global_color_table : Option (List Color)
deriving DecidableEq, Repr

/-- `Parser::read_logical_screen_descriptor` (`parser.rs` lines 244-295). -/
def Parser.read_logical_screen_descriptor (src : List Nat) :
    Except String (LogicalScreenDescriptor × List Nat) := do
  let (w, src) ← read_u16 src
  let (h, src) ← read_u16 src
  let (packed, src) ← read_u8 src
  let gctFlag := packed >>> 7 == 1
  let colorRes := (packed &&& 0b01110000) >>> 4
  let sortFlag := (packed &&& 0b00001000) >>> 3 == 1
  let gctSize := packed &&& 0b00000111
  let (bg, src) ← read_u8 src
  let (par, src) ← read_u8 src
  let ratio : ℚ := if par = 0 then 0 else ((par : ℚ) + 15) / 64
  if gctFlag then
    let (table, src) ← readBytes (3 * (1 <<< (gctSize + 1))) src
    pure (⟨w, h, gctFlag, colorRes, sortFlag, gctSize, bg, ratio, some (chunkColors table)⟩, src)
  else
    pure (⟨w, h, gctFlag, colorRes, sortFlag, gctSize, bg, ratio, none⟩, src)

/-- `struct ImageDescriptor` (`parser.rs` lines 76-86). -/
structure ImageDescriptor where
  left : Nat
  top : Nat
  width : Nat
  height : Nat
  local_color_table_flag : Bool
  interlace_flag : Bool
  sort_flag : Bool
  local_color_table_size : Nat
deriving DecidableEq, Repr

/-- `Parser::read_image_descriptor` (`parser.rs` lines 297-321). -/
def Parser.read_image_descriptor (src : List Nat) :
    Except String (ImageDescriptor × List Nat) := do
  let (left, src) ← read_u16 src
  let (top, src) ← read_u16 src
  let (w, src) ← read_u16 src
  let (h, src) ← read_u16 src
  let (packed, src) ← read_u8 src
  pure (⟨left, top, w, h, packed >>> 7 == 1, (packed &&& 0b01000000) >>> 6 == 1,
    (packed &&& 0b00100000) >>> 5 == 1, packed &&& 0b00000111⟩, src)

/-- `struct ImageData` (`parser.rs` lines 88-92). -/
structure ImageData where
  lzw_min_code_size : Nat
  data_sub_blocks : List Nat
deriving DecidableEq, Repr

/-- `struct TableBasedImage` (`parser.rs` lines 69-74).  Note: it has no
associated-GCE field. -/
structure TableBasedImage where
  image_descriptor : ImageDescriptor
  local_color_table : Option (List Color)
  image_data : ImageData
deriving DecidableEq, Repr

/-- `Parser::read_data_sub_blocks` (`parser.rs` lines 351-369): repeated
`(len, payload)` until a zero length byte, concatenated.  Each iteration
consumes at least the length byte, so fuel `src.length + 1` suffices. -/
def Parser.read_data_sub_blocks (fuel : Nat) (src : List Nat) :
    Except String (List Nat × List Nat) :=
  match fuel with
  | 0 => .error "out of fuel"
  | fuel + 1 =>
    match read_u8 src with
    | .error e => .error e
    | .ok (bs, src1) =>
      if bs = 0 then
        .ok ([], src1)
      else
        match readBytes bs src1 with
        | .error e => .error e
        | .ok (d, src2) =>
          match Parser.read_data_sub_blocks fuel src2 with
          | .error e => .error e
          | .ok (rest, src3) => .ok (d ++ rest, src3)

/-- `Parser::read_table_based_image` (`parser.rs` lines 323-349). -/
def Parser.read_table_based_image (src : List Nat) :
    Except String (TableBasedImage × List Nat) := do
  let (idesc, src) ← Parser.read_image_descriptor src
  let (lct, src) ←
    if idesc.local_color_table_flag then do
      let (table, src) ← readBytes (3 * (1 <<< (idesc.local_color_table_size + 1))) src
      pure (some (chunkColors table), src)
    else
      pure ((none : Option (List Color)), src)
  let (lzw, src) ← read_u8 src
  let (blocks, src) ← Parser.read_data_sub_blocks (src.length + 1) src
  pure (⟨idesc, lct, ⟨lzw, blocks⟩⟩, src)

/-- `enum DisposalMethod` (`parser.rs` lines 60-67). -/
inductive DisposalMethod
  | unspecified
  | doNotDispose
  | restoreToBackgroundColor
  | restoreToPrevious
  | undefined
deriving DecidableEq, Repr

/-- `struct GraphicControlExtension` (`parser.rs` lines 51-58). -/
structure GraphicControlExtension where
  disposal_method : DisposalMethod
  user_input_expected : Bool
  transparent_color_index_available : Bool
  delay_time : Nat
  transparent_color_index : Nat
deriving DecidableEq, Repr

/-- The disposal-method decoding of the GCE packed byte (`parser.rs` lines
417-426): bits 2-4, codes 4-7 are `Undefined`; the catch-all error arm is
unreachable for a byte. -/
def disposalOfPacked (packed : Nat) : Except String DisposalMethod :=
  match (packed &&& 0b00011100) >>> 2 with
  | 0 => pure DisposalMethod.unspecified
  | 1 => pure DisposalMethod.doNotDispose
  | 2 => pure DisposalMethod.restoreToBackgroundColor
  | 3 => pure DisposalMethod.restoreToPrevious
  | 4 | 5 | 6 | 7 => pure DisposalMethod.undefined
  | x => throw ("Error: invalid disposal method: " ++ toString x)

/-- `Parser::read_graphic_control_extension` (`parser.rs` lines 407-445). -/
def Parser.read_graphic_control_extension (src0 : List Nat) :
    Except String (GraphicControlExtension × List Nat) := do
  let (bs, src) ← read_u8 src0
  if bs ≠ 4 then
    throw ("Error: invalid Graphic Control Extension block size: " ++ toString bs)
  let (packed, src) ← read_u8 src
  let disposal ← disposalOfPacked packed
  let uie := (packed &&& 0b00000010) >>> 1 == 1
  let tcia := packed &&& 0b00000001 == 1
  let (delay, src) ← read_u16 src
  let (tci, src) ← read_u8 src
  let (term, src) ← read_u8 src
  if term ≠ 0 then
    throw "Error: block terminator not found for Graphic Control Extension"
  pure (⟨disposal, uie, tcia, delay, tci⟩, src)

/-- `struct PlainTextExtension` (`parser.rs` lines 94-105); the text kept as
UTF-8 bytes. -/
structure PlainTextExtension where
  text_grid_left_pos : Nat
  text_grid_top_pos : Nat
  text_grid_width : Nat
  text_grid_height : Nat
  char_cell_width : Nat
  char_cell_height : Nat
  text_fg_color_index : Nat
  text_bg_color_index : Nat
  plain_text_data : List Nat
deriving DecidableEq, Repr

/-- `Parser::read_plain_text_extension` (`parser.rs` lines 447-480). -/
def Parser.read_plain_text_extension (src0 : List Nat) :
    Except String (PlainTextExtension × List Nat) := do
  let (bs, src) ← read_u8 src0
  if bs ≠ 12 then
    throw ("Error: invalid Plain Text Extension block size: " ++ toString bs)
  let (gl, src) ← read_u16 src
  let (gt, src) ← read_u16 src
  let (gw, src) ← read_u16 src
  let (gh, src) ← read_u16 src
  let (cw, src) ← read_u8 src
  let (ch, src) ← read_u8 src
  let (fg, src) ← read_u8 src
  let (bg, src) ← read_u8 src
  let (d, src) ← Parser.read_data_sub_blocks (src.length + 1) src
  if utf8valid d then
    pure (⟨gl, gt, gw, gh, cw, ch, fg, bg, d⟩, src)
  else
    throw "Error: invalid utf-8 sequence"

/-- `struct ApplicationExtension` (`parser.rs` lines 107-112). -/
structure ApplicationExtension where
  id : List Nat
  auth_code : List Nat
  data_sub_blocks : List Nat
deriving DecidableEq, Repr

/-- `Parser::read_application_extension` (`parser.rs` lines 371-399).  The
source calls `from_utf8(..).unwrap()` on the id and auth code; the panic on
invalid UTF-8 is rendered as an error. -/
def Parser.read_application_extension (src0 : List Nat) :
    Except String (ApplicationExtension × List Nat) := do
  let (bs, src) ← read_u8 src0
  if bs ≠ 11 then
    throw ("Error: invalid Application Extension block size: " ++ toString bs)
  let (idb, src) ← readBytes 8 src
  let (ac, src) ← readBytes 3 src
  if utf8valid idb ∧ utf8valid ac then
    let (d, src) ← Parser.read_data_sub_blocks (src.length + 1) src
    pure (⟨idb, ac, d⟩, src)
  else
    throw "panicked: invalid utf-8 sequence"

/-- `struct CommentExtension` (`parser.rs` lines 114-117). -/
structure CommentExtension where
  text : List Nat
deriving DecidableEq, Repr

/-- `Parser::read_comment_extension` (`parser.rs` lines 401-405). -/
def Parser.read_comment_extension (src : List Nat) :
    Except String (CommentExtension × List Nat) := do
  let (d, src) ← Parser.read_data_sub_blocks (src.length + 1) src
  if utf8valid d then
    pure (⟨d⟩, src)
  else
    throw "Error: invalid utf-8 sequence"

/-- `enum DataType` (`parser.rs` lines 42-49). -/
inductive DataType
  | applicationExtensionType (e : ApplicationExtension)
  | commentExtensionType (e : CommentExtension)
  | graphicControlExtensionType (e : GraphicControlExtension)
  | plainTextExtensionType (e : PlainTextExtension)
  | tableBasedImageType (e : TableBasedImage)
deriving DecidableEq, Repr

/-- `enum ExtensionType` (`parser.rs` lines 33-40). -/
inductive ExtensionType
  | applicationExtension
  | commentExtension
  | graphicControlExtension
  | plainTextExtension
  | unknownExt (x : Nat)
deriving DecidableEq, Repr

/-- `enum BlockType` (`parser.rs` lines 25-31). -/
inductive BlockType
  | tableBasedImage
  | extensionBlock (e : ExtensionType)
  | trailer
  | unknownBlock (x : Nat)
deriving DecidableEq, Repr

/-- `Parser::read_block_type` (`parser.rs` lines 211-227): dispatch on the
introducer byte, reading the label byte as well for `0x21` extensions. -/
def Parser.read_block_type (src : List Nat) : Except String (BlockType × List Nat) := do
  let (b, src) ← read_u8 src
  match b with
  | 0x2c => pure (BlockType.tableBasedImage, src)
  | 0x21 => do
    let (l, src) ← read_u8 src
    match l with
    | 0xf9 => pure (BlockType.extensionBlock .graphicControlExtension, src)
    | 0xfe => pure (BlockType.extensionBlock .commentExtension, src)
    | 0x01 => pure (BlockType.extensionBlock .plainTextExtension, src)
    | 0xff => pure (BlockType.extensionBlock .applicationExtension, src)
    | x => pure (BlockType.extensionBlock (.unknownExt x), src)
  | 0x3b => pure (BlockType.trailer, src)
  | x => pure (BlockType.unknownBlock x, src)

/-- The block loop of `Parser::parse` (`parser.rs` lines 145-184): read
blocks in order into `data_blocks` until the trailer.  Every iteration
consumes at least the introducer byte, so fuel `src.length + 1` suffices. -/
def Parser.parseDataBlocks (fuel : Nat) (src : List Nat) :
    Except String (List DataType × List Nat) :=
  match fuel with
  | 0 => .error "out of fuel"
  | fuel + 1 =>
    match Parser.read_block_type src with
    | .error e => .error e
    | .ok (bt, src1) =>
      match bt with
      | BlockType.tableBasedImage =>
        match Parser.read_table_based_image src1 with
        | .error e => .error e
        | .ok (img, src2) =>
          match Parser.parseDataBlocks fuel src2 with
          | .error e => .error e
          | .ok (blocks, src3) => .ok (DataType.tableBasedImageType img :: blocks, src3)
      | BlockType.extensionBlock ExtensionType.applicationExtension =>
        match Parser.read_application_extension src1 with
        | .error e => .error e
        | .ok (e, src2) =>
          match Parser.parseDataBlocks fuel src2 with
          | .error e => .error e
          | .ok (blocks, src3) => .ok (DataType.applicationExtensionType e :: blocks, src3)
      | BlockType.extensionBlock ExtensionType.commentExtension =>
        match Parser.read_comment_extension src1 with
        | .error e => .error e
        | .ok (e, src2) =>
          match Parser.parseDataBlocks fuel src2 with
          | .error e => .error e
          | .ok (blocks, src3) => .ok (DataType.commentExtensionType e :: blocks, src3)
      | BlockType.extensionBlock ExtensionType.graphicControlExtension =>
        match Parser.read_graphic_control_extension src1 with
        | .error e => .error e
        | .ok (e, src2) =>
          match Parser.parseDataBlocks fuel src2 with
          | .error e => .error e
          | .ok (blocks, src3) => .ok (DataType.graphicControlExtensionType e :: blocks, src3)
      | BlockType.extensionBlock ExtensionType.plainTextExtension =>
        match Parser.read_plain_text_extension src1 with
        | .error e => .error e
        | .ok (e, src2) =>
          match Parser.parseDataBlocks fuel src2 with
          | .error e => .error e
          | .ok (blocks, src3) => .ok (DataType.plainTextExtensionType e :: blocks, src3)
      | BlockType.extensionBlock (ExtensionType.unknownExt x) =>
        .error ("Error: unknown extension type: " ++ toString x)
      | BlockType.trailer => .ok ([], src1)
      | BlockType.unknownBlock x =>
        .error ("Error: unknown block type: " ++ toString x)

/-- `struct ParseResult` (`parser.rs` lines 119-124). -/
structure ParseResult where
  header : Header
  logical_screen_descriptor : LogicalScreenDescriptor
  data_blocks : List DataType
deriving DecidableEq, Repr

/-- `Parser::parse` (`parser.rs` lines 136-191): header (signature must be
`"GIF"`), logical screen descriptor, then the block list. -/
def Parser.parse (src : List Nat) : Except String ParseResult := do
  let (header, src) ← Parser.read_header src
  if header.sig ≠ gifSig then
    throw "Error: file is not a GIF"
  let (lsd, src) ← Parser.read_logical_screen_descriptor src
  let (blocks, _) ← Parser.parseDataBlocks (src.length + 1) src
  pure ⟨header, lsd, blocks⟩

/-! ## Frame compositor and public facade

The published crate exposes `load(src) → Gif` driving the parser and a
frame compositor — `main.rs` and `examples/example.rs` call it and consume
`Gif { width, height, image_frames }` — but that code is not among the
given sources: the `lib.rs` present is an earlier standalone decoder whose
`load` only prints a parse result.  The compositor and facade are therefore
modelled from the spec (sections 4.5, 4.6 and 8). -/

/-- `ImageFrame` of the public API: a full-screen row-major color buffer
plus the GCE-derived delay time.  Modelled from the spec: section 6. -/
structure ImageFrame where
  colors : List Color
  delay_time : Nat
deriving DecidableEq, Repr

/-- `Gif`, the public output value.  Modelled from the spec: section 6. -/
structure Gif where
  width : Nat
  height : Nat
  image_frames : List ImageFrame
deriving DecidableEq, Repr

/-- Modelled from the spec: the four interlace passes
`(start, step) = (0,8), (4,8), (2,4), (1,2)` — the screen rows listed in
file order. -/
def interlaceRows (h : Nat) : List Nat :=
  (List.range h).filter (fun r => r % 8 = 0) ++
    (List.range h).filter (fun r => r % 8 = 4) ++
    (List.range h).filter (fun r => r % 4 = 2) ++
    (List.range h).filter (fun r => r % 2 = 1)

/-- Modelled from the spec: deinterlacing (section 4.5 step 5) — output row
`r` is the file row at the position of `r` in the pass order. -/
def deinterlace (pix : List (Option Color)) (w h : Nat) : List (Option Color) :=
  (List.range (h * w)).map
    (fun p => pix.getD ((interlaceRows h).indexOf (p / w) * w + p % w) none)

/-- Modelled from the spec: section 4.5 step 7 — blit the (possibly
transparent) sub-image into the full-screen base buffer at `(left, top)`;
transparent pixels leave the base pixel unchanged. -/
def blit (base : List Color) (pix : List (Option Color)) (wScreen left top w h : Nat) :
    List Color :=
  (List.range base.length).map (fun p =>
    let r := p / wScreen
    let c := p % wScreen
    if left ≤ c ∧ c < left + w ∧ top ≤ r ∧ r < top + h then
      match pix.getD ((r - top) * w + (c - left)) none with
      | some col => col
      | none => base.getD p ⟨0, 0, 0⟩
    else
      base.getD p ⟨0, 0, 0⟩)

/-- Walk state of the compositor.  Modelled from the spec: section 4.5 —
the buffered GCE, the frames so far, the previous composited frame, and the
pre-disposal history buffer for `RestoreToPrevious`. -/
structure CompState where
  lastGce : Option GraphicControlExtension
  frames : List ImageFrame
  prevFrame : Option (List Color)
  prevSnapshot : Option (List Color)
deriving DecidableEq, Repr

/-- Modelled from the spec: section 4.5 step 1 — the active color table is
the local one if present, else the global one; missing both is a decode
error. -/
def activeColorTable (lsd : LogicalScreenDescriptor) (img : TableBasedImage) :
    Option (List Color) :=
  match img.local_color_table with
  | some t => some t
  | none => lsd.global_color_table

/-- Modelled from the spec: section 4.5 step 2 — `(transparent_flag,
transparent_index, disposal_method, delay_time)` from the buffered GCE, or
the defaults `(false, 0, Unspecified, 0)`. -/
def gceParams (g? : Option GraphicControlExtension) :
    Bool × Nat × DisposalMethod × Nat :=
  match g? with
  | some g => (g.transparent_color_index_available, g.transparent_color_index,
      g.disposal_method, g.delay_time)
  | none => (false, 0, DisposalMethod.unspecified, 0)

/-- Modelled from the spec: section 4.5 step 6 — the base buffer for the
new frame: background fill for the first frame, else the previous frame
(`Unspecified`/`DoNotDispose`), a background fill
(`RestoreToBackgroundColor`), or the pre-disposal snapshot
(`RestoreToPrevious`); `Undefined` is rejected before this point. -/
def disposalBase (disp : DisposalMethod) (prevFrame prevSnapshot : Option (List Color))
    (bgFill : List Color) : List Color :=
  match prevFrame with
  | none => bgFill
  | some prevBuf =>
    match disp with
    | DisposalMethod.unspecified => prevBuf
    | DisposalMethod.doNotDispose => prevBuf
    | DisposalMethod.restoreToBackgroundColor => bgFill
    | DisposalMethod.restoreToPrevious => prevSnapshot.getD bgFill
    | DisposalMethod.undefined => prevBuf

/-- Modelled from the spec: section 4.5 steps 4-9 — the successful part of
one compositor step: apply transparency, optionally deinterlace, build the
base per disposal, blit at `(left, top)`, append the frame with the GCE
delay, clear the buffered GCE and roll the history buffer. -/
def composeFrame (lsd : LogicalScreenDescriptor) (st : CompState) (img : TableBasedImage)
    (activeTable : List Color) (idxs : List Nat) : CompState :=
  let tflag := (gceParams st.lastGce).1
  let tidx := (gceParams st.lastGce).2.1
  let delay := (gceParams st.lastGce).2.2.2
  let pix0 := idxs.map
    (fun i => if tflag ∧ i = tidx then none else some (activeTable.getD i ⟨0, 0, 0⟩))
  let pix := if img.image_descriptor.interlace_flag then
      deinterlace pix0 img.image_descriptor.width img.image_descriptor.height
    else pix0
  let bgFill := List.replicate (lsd.width * lsd.height)
    (activeTable.getD lsd.background_color_index ⟨0, 0, 0⟩)
  let base := disposalBase (gceParams st.lastGce).2.2.1 st.prevFrame st.prevSnapshot bgFill
  let frame := blit base pix lsd.width img.image_descriptor.left
    img.image_descriptor.top img.image_descriptor.width img.image_descriptor.height
  ⟨none, st.frames ++ [⟨frame, delay⟩], some frame, st.prevFrame⟩

/-- Modelled from the spec: section 4.5 steps 1-9 for one image block:
choose the active color table, reject undefined disposal, decompress to
indices whose count must be `imgW·imgH`, reject out-of-bounds placement,
then compose the frame. -/
def processImage (lsd : LogicalScreenDescriptor) (st : CompState) (img : TableBasedImage) :
    Except String CompState :=
  match activeColorTable lsd img with
  | none => .error "Error: missing color table"
  | some activeTable =>
    if (gceParams st.lastGce).2.2.1 = DisposalMethod.undefined then
      .error "Error: undefined disposal method"
    else
      match Decompressor.decompressIndices img.image_data.data_sub_blocks
          activeTable.length img.image_data.lzw_min_code_size with
      | .error e => .error e
      | .ok idxs =>
        if idxs.length ≠ img.image_descriptor.width * img.image_descriptor.height then
          .error "Error: decompressed index count mismatch"
        else if lsd.width < img.image_descriptor.left + img.image_descriptor.width ∨
            lsd.height < img.image_descriptor.top + img.image_descriptor.height then
          .error "Error: image placement out of bounds"
        else
          .ok (composeFrame lsd st img activeTable idxs)

/-- Modelled from the spec: the compositor's walk over the parsed block
list (section 4.5): buffer GCEs, composite image blocks, ignore other
blocks. -/
def compositeBlocks (lsd : LogicalScreenDescriptor) :
    List DataType → CompState → Except String CompState
  | [], st => .ok st
  | b :: rest, st =>
    match b with
    | DataType.graphicControlExtensionType g =>
      compositeBlocks lsd rest ⟨some g, st.frames, st.prevFrame, st.prevSnapshot⟩
    | DataType.tableBasedImageType img =>
      match processImage lsd st img with
      | .error e => .error e
      | .ok st' => compositeBlocks lsd rest st'
    | _ => compositeBlocks lsd rest st

/-- Modelled from the spec: the public facade `load(byte_source) → Gif |
Error` (section 4.6) — parse, composite, return the frames with the logical
screen size.  Section 8 invariant 1 (`|image_frames| ≥ 1` for every valid
GIF) is taken as part of the contract: a stream with no image block is
rejected. -/
def load (src : List Nat) : Except String Gif :=
  match Parser.parse src with
  | .error e => .error e
  | .ok r =>
    match compositeBlocks r.logical_screen_descriptor r.data_blocks ⟨none, [], none, none⟩ with
    | .error e => .error e
    | .ok st =>
      if st.frames.isEmpty then
        .error "Error: no image frames"
      else
        .ok ⟨r.logical_screen_descriptor.width, r.logical_screen_descriptor.height, st.frames⟩

/-! ## Concrete fixtures -/

deriving instance DecidableEq for Except

/-- White of the reference palette of `test_decompressor_decompress`. -/
def colorWhite : Color := ⟨255, 255, 255⟩

/-- Red of the reference palette. -/
def colorRed : Color := ⟨255, 0, 0⟩

/-- Blue of the reference palette. -/
def colorBlue : Color := ⟨0, 0, 255⟩

/-- The 4-color palette of `test_decompressor_decompress`
(`decompressor.rs` lines 408-413). -/
def testPalette : List Color :=
  [colorWhite, colorRed, colorBlue, ⟨0, 0, 0⟩]

/-- The 22 compressed bytes of the reference test vector
(`decompressor.rs` lines 300-303). -/
def testInput : List Nat :=
  [140, 45, 153, 135, 42, 28, 220, 51, 160, 2, 117, 236, 149, 250, 168, 222, 96, 140, 4, 145, 76, 1]

/-- The 100 expected colors of the reference test vector
(`decompressor.rs` lines 305-406). -/
def testExpected : List Color :=
  [colorRed, colorRed, colorRed, colorRed, colorRed, colorBlue, colorBlue, colorBlue, colorBlue, colorBlue,
   colorRed, colorRed, colorRed, colorRed, colorRed, colorBlue, colorBlue, colorBlue, colorBlue, colorBlue,
   colorRed, colorRed, colorRed, colorRed, colorRed, colorBlue, colorBlue, colorBlue, colorBlue, colorBlue,
   colorRed, colorRed, colorRed, colorWhite, colorWhite, colorWhite, colorWhite, colorBlue, colorBlue, colorBlue,
   colorRed, colorRed, colorRed, colorWhite, colorWhite, colorWhite, colorWhite, colorBlue, colorBlue, colorBlue,
   colorBlue, colorBlue, colorBlue, colorWhite, colorWhite, colorWhite, colorWhite, colorRed, colorRed, colorRed,
   colorBlue, colorBlue, colorBlue, colorWhite, colorWhite, colorWhite, colorWhite, colorRed, colorRed, colorRed,
   colorBlue, colorBlue, colorBlue, colorBlue, colorBlue, colorRed, colorRed, colorRed, colorRed, colorRed,
   colorBlue, colorBlue, colorBlue, colorBlue, colorBlue, colorRed, colorRed, colorRed, colorRed, colorRed,
   colorBlue, colorBlue, colorBlue, colorBlue, colorBlue, colorRed, colorRed, colorRed, colorRed, colorRed]

/-- A minimal GIF stream containing one GCE followed by one image block:
header `GIF89a`, a 1×1 logical screen without global table, the GCE
`21 F9 04 00 0000 00 00`, an image block with empty data, and the
trailer. -/
def gceImageStream : List Nat :=
  [71, 73, 70, 56, 57, 97,
   1, 0, 1, 0, 0, 0, 0,
   33, 249, 4, 0, 0, 0, 0, 0,
   44, 0, 0, 0, 0, 1, 0, 1, 0, 0, 2, 0,
   59]

/-- A minimal complete GIF: `GIF89a`, 1×1 screen, 2-color global table
`(10,20,30), (40,50,60)`, one 1×1 image block whose LZW data is the single
code 0 after the leading clear code, and the trailer. -/
def tinyGif : List Nat :=
  [71, 73, 70, 56, 57, 97,
   1, 0, 1, 0, 128, 0, 0,
   10, 20, 30, 40, 50, 60,
   44, 0, 0, 0, 0, 1, 0, 1, 0, 0,
   2, 1, 2, 0,
   59]

/-- Size invariant of the compositor state: every produced frame and every
retained buffer is a full-screen `W·H` buffer. -/
def CompStateInv (W H : Nat) (st : CompState) : Prop :=
  (∀ f ∈ st.frames, f.colors.length = W * H) ∧
  (∀ b, st.prevFrame = some b → b.length = W * H) ∧
  (∀ b, st.prevSnapshot = some b → b.length = W * H)

/-! ## Claim theorems -/

/-- C7: decompressing the 22-byte reference input with
`lzw_min_code_size = 2` and the 4-color palette succeeds and yields exactly
the 100-color sequence of the reference test vector (which begins five red,
five blue, five red, five blue). -/
theorem c7_reference_vector :
    Decompressor.decompress testInput testPalette 2 = .ok testExpected := by
  decide

/-- C3 counterexample: the compressed stream `[0x04]` (with the reference
palette and `lzw_min_code_size = 2`) contains the leading CLEAR code and
the code 0, and is then exhausted exactly where the main loop reads its
next code.  The claim says decompression must fail with a
truncated-bitstream error; the code instead returns `Ok` with the indices
emitted so far (one pixel). -/
theorem c3_truncation_counterexample :
    Decompressor.decompress [4] testPalette 2 = .ok [⟨255, 255, 255⟩] ∧
    ∀ e, Decompressor.decompress [4] testPalette 2 ≠ .error e := by
  constructor
  · decide
  · intro e h
    rw [show Decompressor.decompress [4] testPalette 2 = .ok [⟨255, 255, 255⟩] from by decide] at h
    cases h

/-- C3 amended: when the bit stream is exhausted at a point where the main
loop expects to read another code, `decompress_until_clear` returns
`Ok(false)` with the indices accumulated so far — decompression then
succeeds with the partial output instead of failing (only
`expect_clear_code` turns exhaustion into an error). -/
theorem c3_truncation_yields_ok_false (fuel prev : Nat) (table : List CodeValue)
    (cs clear : Nat) (rs : CodeReader) (result : List Nat)
    (h : CodeReader.read cs rs = none) :
    Decompressor.ducLoop (fuel + 1) prev table cs clear rs result =
      .ok ⟨false, result, rs, table, cs⟩ ∧
    Decompressor.decompressUntilClear fuel table cs clear rs result =
      .ok ⟨false, result, rs, table, cs⟩ := by
  constructor
  · unfold Decompressor.ducLoop
    rw [h]
  · unfold Decompressor.decompressUntilClear
    rw [h]

/-- Witness for C3's amended theorem at a concrete exhausted reader. -/
theorem c3_truncation_yields_ok_false_witness :
    Decompressor.ducLoop 5 0 (Decompressor.reset 4) 3 4 (CodeReader.new []) [0] =
      .ok ⟨false, [0], CodeReader.new [], Decompressor.reset 4, 3⟩ :=
  (c3_truncation_yields_ok_false 4 0 (Decompressor.reset 4) 3 4 (CodeReader.new []) [0]
    (by decide)).1

/-- C2 counterexample: with a supplied color table of length 2 and
`lzw_min_code_size = 2` (a 2-color GIF), the claim says the first
`2^2 = 4` dictionary entries after a reset are the singletons
`[0], [1], [2], [3]`; in the code the singletons stop at the color-table
length, and entry 2 is already the CLEAR marker `Single(2)`. -/
theorem c2_reset_claim_counterexample :
    ¬ ∀ i < 2 ^ 2, (Decompressor.reset 2)[i]? = some (CodeValue.indices [i]) := by
  decide

/-- C2 amended: immediately after each reset the dictionary holds exactly
`|color_table| + 2` entries: the singletons `[0] … [|ct|-1]`, the CLEAR
marker at index `|ct|`, and END_OF_INFORMATION at `|ct| + 1`.  The layout
is determined by the color-table length (the clear code is
`color_table.len()`), not by `2^lzw_min_code_size`; the two agree exactly
when `|ct| = 2^m`. -/
theorem c2_reset_layout (n : Nat) :
    (Decompressor.reset n).length = n + 2 ∧
    (∀ i, i < n → (Decompressor.reset n)[i]? = some (CodeValue.indices [i])) ∧
    (Decompressor.reset n)[n]? = some (CodeValue.single n) ∧
    (Decompressor.reset n)[n + 1]? = some (CodeValue.single (n + 1)) := by
  refine ⟨?_, ?_, ?_, ?_⟩
  · simp [Decompressor.reset]
  · intro i hi
    rw [Decompressor.reset, List.getElem?_append_left (by simpa using hi)]
    simp [List.getElem?_map, List.getElem?_range, hi]
  · rw [Decompressor.reset, List.getElem?_append_right (by simp)]
    simp
  · rw [Decompressor.reset, List.getElem?_append_right (by simp)]
    simp

/-- Witness for C2's amended theorem at `n = 4`, `i = 1`. -/
theorem c2_reset_layout_witness :
    (Decompressor.reset 4)[1]? = some (CodeValue.indices [1]) :=
  (c2_reset_layout 4).2.1 1 (by decide)

/-- C1: for every decode step that appends a dictionary entry (the shared
insertion step of `decompress_until_clear`), the entry is appended at index
`table.length`; when that index is `(2^current_width) - 1` the width
increases by exactly one, otherwise it is unchanged, and the width never
exceeds 12.  The loop continues with the returned width, so the increase is
in effect before the next code is read.  (At width 12 and boundary length
the step does not append at all — it demands a CLEAR code instead.) -/
theorem c1_width_growth (table : List CodeValue) (cs clear : Nat) (rs : CodeReader)
    (entry : List Nat) (hcs : cs ≤ 12) :
    ∀ table' cs' rs',
      Decompressor.growTable table cs clear rs entry = .ok (.grown table' cs' rs') →
        table' = table ++ [CodeValue.indices entry] ∧ cs' ≤ 12 ∧
        (table.length = 2 ^ cs - 1 → cs' = cs + 1 ∧ cs < 12) ∧
        (table.length ≠ 2 ^ cs - 1 → cs' = cs) := by
  intro table' cs' rs' h
  unfold Decompressor.growTable at h
  rw [Nat.shiftLeft_eq, one_mul] at h
  by_cases hlen : table.length = 2 ^ cs - 1
  · rw [if_pos hlen] at h
    by_cases h12 : cs = 12
    · rw [if_pos h12] at h
      cases hec : Decompressor.expectClearCode cs clear rs with
      | error e => rw [hec] at h; cases h
      | ok rs2 => rw [hec] at h; cases h
    · rw [if_neg h12] at h
      simp only [Except.ok.injEq, GrowOutcome.grown.injEq] at h
      obtain ⟨h1, h2, _⟩ := h
      exact ⟨h1.symm, by omega, fun _ => by omega, fun hc => absurd hlen hc⟩
  · rw [if_neg hlen] at h
    simp only [Except.ok.injEq, GrowOutcome.grown.injEq] at h
    obtain ⟨h1, h2, _⟩ := h
    exact ⟨h1.symm, by omega, fun hc => absurd hc hlen, fun _ => h2.symm⟩

/-- Witness for C1 at a boundary insertion: the dictionary of length
`2^3 - 1 = 7` at width 3 appends the entry at index 7 and grows to width
4. -/
theorem c1_width_growth_witness :
    (List.replicate 7 (CodeValue.indices [0]) ++ [CodeValue.indices [0, 1]] =
      List.replicate 7 (CodeValue.indices [0]) ++ [CodeValue.indices [0, 1]]) ∧
    (4 : Nat) ≤ 12 ∧
    ((List.replicate 7 (CodeValue.indices [0])).length = 2 ^ 3 - 1 → 4 = 3 + 1 ∧ 3 < 12) ∧
    ((List.replicate 7 (CodeValue.indices [0])).length ≠ 2 ^ 3 - 1 → 4 = 3) :=
  c1_width_growth (List.replicate 7 (CodeValue.indices [0])) 3 4 (CodeReader.new []) [0, 1]
    (by decide) (List.replicate 7 (CodeValue.indices [0]) ++ [CodeValue.indices [0, 1]]) 4
    (CodeReader.new []) (by decide)

/-- Evaluation of `expect_clear_code` on an exhausted stream. -/
theorem Decompressor.expectClearCode_of_none {cs clear : Nat} {rs : CodeReader}
    (h : CodeReader.read cs rs = none) :
    Decompressor.expectClearCode cs clear rs =
      .error ("Missing clear code " ++ toString clear) := by
  unfold Decompressor.expectClearCode
  rw [h]

/-- Evaluation of `expect_clear_code` on a non-clear code. -/
theorem Decompressor.expectClearCode_of_ne {cs clear c : Nat} {rs rs' : CodeReader}
    (h : CodeReader.read cs rs = some (c, rs')) (hne : c ≠ clear) :
    Decompressor.expectClearCode cs clear rs =
      .error ("Invalid clear code " ++ toString c ++ ", expected: " ++ toString clear) := by
  unfold Decompressor.expectClearCode
  rw [h]
  exact if_pos hne

/-- Evaluation of `expect_clear_code` on the clear code. -/
theorem Decompressor.expectClearCode_of_clear {cs clear : Nat} {rs rs' : CodeReader}
    (h : CodeReader.read cs rs = some (clear, rs')) :
    Decompressor.expectClearCode cs clear rs = .ok rs' := by
  unfold Decompressor.expectClearCode
  rw [h]
  exact if_neg (by simp)

/-- C5: when the dictionary is saturated at width 12 (its length is
`2^12 - 1`, so the step cannot insert), the next code read from the stream
must be the CLEAR code: stream end is a missing-clear error, any other code
is an invalid-clear error, and only the clear code lets decompression
continue (returning to the caller's reset loop). -/
theorem c5_saturation_requires_clear (table : List CodeValue) (clear : Nat)
    (rs : CodeReader) (entry : List Nat) (hlen : table.length = 2 ^ 12 - 1) :
    (CodeReader.read 12 rs = none →
      Decompressor.growTable table 12 clear rs entry =
        .error ("Missing clear code " ++ toString clear)) ∧
    (∀ c rs', CodeReader.read 12 rs = some (c, rs') → c ≠ clear →
      Decompressor.growTable table 12 clear rs entry =
        .error ("Invalid clear code " ++ toString c ++ ", expected: " ++ toString clear)) ∧
    (∀ rs', CodeReader.read 12 rs = some (clear, rs') →
      Decompressor.growTable table 12 clear rs entry = .ok (.cleared rs')) := by
  have hb : table.length = (1 <<< 12) - 1 := by rw [hlen]; decide
  refine ⟨?_, ?_, ?_⟩
  · intro h
    unfold Decompressor.growTable
    rw [if_pos hb, if_pos rfl, Decompressor.expectClearCode_of_none h]
  · intro c rs' h hne
    unfold Decompressor.growTable
    rw [if_pos hb, if_pos rfl, Decompressor.expectClearCode_of_ne h hne]
  · intro rs' h
    unfold Decompressor.growTable
    rw [if_pos hb, if_pos rfl, Decompressor.expectClearCode_of_clear h]

/-- Witness for C5 at a concrete saturated dictionary with an exhausted
stream: the step demands a clear code and errors. -/
theorem c5_saturation_requires_clear_witness :
    Decompressor.growTable (List.replicate 4095 (CodeValue.indices [0])) 12 0
        (CodeReader.new []) [] = .error ("Missing clear code " ++ toString 0) :=
  (c5_saturation_requires_clear (List.replicate 4095 (CodeValue.indices [0])) 0
    (CodeReader.new []) [] (by rw [List.length_replicate]; decide)).1 (by decide)

/-- C8 counterexample: parsing a stream consisting of one GCE directly
followed by one image block.  The claim says the parser attaches the
buffered GCE to the image's parsed structure and clears the buffer; in the
code `TableBasedImage` has no associated-GCE field at all, and the parse
output keeps the GCE as its own `data_blocks` entry preceding the image —
nothing is attached or consumed. -/
theorem c8_gce_attachment_counterexample :
    (Parser.parse gceImageStream).map ParseResult.data_blocks =
      .ok [DataType.graphicControlExtensionType
            ⟨DisposalMethod.unspecified, false, false, 0, 0⟩,
          DataType.tableBasedImageType
            ⟨⟨0, 0, 1, 1, false, false, false, 0⟩, none, ⟨2, []⟩⟩] := by
  decide

/-- C8 amended: the parser does not associate GCEs with images.  Every GCE
block is appended to `data_blocks` as its own standalone entry, in stream
order, directly in front of whatever the rest of the stream parses to;
`TableBasedImage` carries no GCE.  (Associating a GCE with the following
image is deferred to the frame compositor.) -/
theorem c8_gce_standalone (fuel p dlo dhi tci : Nat) (rest : List Nat)
    (blocks : List DataType) (restSrc : List Nat) (d : DisposalMethod)
    (hd : disposalOfPacked p = .ok d)
    (h : Parser.parseDataBlocks fuel rest = .ok (blocks, restSrc)) :
    Parser.parseDataBlocks (fuel + 1)
        (33 :: 249 :: 4 :: p :: dlo :: dhi :: tci :: 0 :: rest) =
      .ok (DataType.graphicControlExtensionType
          ⟨d, (p &&& 2) >>> 1 == 1, p &&& 1 == 1, dlo + 256 * dhi, tci⟩ :: blocks, restSrc) := by
  have hbt : Parser.read_block_type (33 :: 249 :: 4 :: p :: dlo :: dhi :: tci :: 0 :: rest) =
      .ok (BlockType.extensionBlock .graphicControlExtension,
        4 :: p :: dlo :: dhi :: tci :: 0 :: rest) := by
    rfl
  have hgce : Parser.read_graphic_control_extension (4 :: p :: dlo :: dhi :: tci :: 0 :: rest) =
      .ok (⟨d, (p &&& 2) >>> 1 == 1, p &&& 1 == 1, dlo + 256 * dhi, tci⟩, rest) := by
    unfold Parser.read_graphic_control_extension
    simp only [read_u8, read_u16, bind, Except.bind, pure, Except.pure, hd]
    norm_num
  unfold Parser.parseDataBlocks
  rw [hbt]
  simp only [hgce, h]

/-- Witness for C8's amended theorem: prepending a concrete GCE block to a
bare trailer. -/
theorem c8_gce_standalone_witness :
    Parser.parseDataBlocks 2 (33 :: 249 :: 4 :: 5 :: 1 :: 0 :: 7 :: 0 :: [59]) =
      .ok (DataType.graphicControlExtensionType
        ⟨DisposalMethod.doNotDispose, Nat.shiftRight (5 &&& 2) 1 == 1, 5 &&& 1 == 1,
          1 + 256 * 0, 7⟩ :: [], []) :=
  c8_gce_standalone 1 5 1 0 7 [59] [] [] DisposalMethod.doNotDispose (by decide) (by decide)

/-- C10: the parser checks only that the first three header bytes are
`"GIF"`; the three version bytes are never compared against `"87a"` or
`"89a"` — any valid UTF-8 version passes `read_header` and is stored
as-is. -/
theorem c10_version_not_validated (src : List Nat)
    (hsig : src.take 3 = gifSig)
    (hver : utf8valid ((src.drop 3).take 3) = true)
    (hlen : 6 ≤ src.length) :
    Parser.read_header src = .ok (⟨gifSig, (src.drop 3).take 3⟩, src.drop 6) := by
  unfold Parser.read_header readBytes
  rw [if_neg (by omega)]
  have h1 : (src.take 6).take 3 = gifSig := by
    rw [List.take_take]
    simpa using hsig
  have h2 : (src.take 6).drop 3 = (src.drop 3).take 3 := by
    rw [List.drop_take]
  have hg : utf8valid gifSig = true := by decide
  dsimp only
  rw [h1, h2, hver, hg]
  simp

/-- Witness for C10: a header whose version bytes are `"xyz"` (neither
`"87a"` nor `"89a"`) parses successfully with the version stored as-is. -/
theorem c10_version_not_validated_witness :
    Parser.read_header [71, 73, 70, 120, 121, 122, 99] =
      .ok (⟨gifSig, ([71, 73, 70, 120, 121, 122, 99].drop 3).take 3⟩,
        [71, 73, 70, 120, 121, 122, 99].drop 6) :=
  c10_version_not_validated [71, 73, 70, 120, 121, 122, 99] (by decide) (by decide) (by decide)

/-- The blit buffer always has the base buffer's length. -/
theorem blit_length (base : List Color) (pix : List (Option Color)) (wS l t w h : Nat) :
    (blit base pix wS l t w h).length = base.length := by
  simp [blit]

/-- The disposal base buffer has the full-screen length whenever the
retained buffers do. -/
theorem disposalBase_length (disp : DisposalMethod) (prevFrame prevSnapshot : Option (List Color))
    (bgFill : List Color) (W H : Nat) (hbg : bgFill.length = W * H)
    (hp : ∀ b, prevFrame = some b → b.length = W * H)
    (hs : ∀ b, prevSnapshot = some b → b.length = W * H) :
    (disposalBase disp prevFrame prevSnapshot bgFill).length = W * H := by
  unfold disposalBase
  cases hpf : prevFrame with
  | none => exact hbg
  | some prevBuf =>
    have hb := hp prevBuf hpf
    cases disp with
    | restoreToBackgroundColor => exact hbg
    | restoreToPrevious =>
      cases hps : prevSnapshot with
      | none => simpa using hbg
      | some b => simpa using hs b hps
    | unspecified => exact hb
    | doNotDispose => exact hb
    | undefined => exact hb

/-- The frame composed by one successful compositor step, and the rolled
history, satisfy the size invariant. -/
theorem composeFrame_inv (lsd : LogicalScreenDescriptor) (st : CompState)
    (img : TableBasedImage) (activeTable : List Color) (idxs : List Nat)
    (hinv : CompStateInv lsd.width lsd.height st) :
    CompStateInv lsd.width lsd.height (composeFrame lsd st img activeTable idxs) := by
  obtain ⟨hframes, hprev, hsnap⟩ := hinv
  dsimp only [composeFrame, CompStateInv]
  refine ⟨?_, ?_, ?_⟩
  · intro f hf
    rcases List.mem_append.mp hf with hf | hf
    · exact hframes f hf
    · rcases List.mem_singleton.mp hf with rfl
      dsimp only
      rw [blit_length]
      exact disposalBase_length _ _ _ _ _ _ (by simp) hprev hsnap
  · intro b hb
    rw [Option.some.injEq] at hb
    rw [← hb, blit_length]
    exact disposalBase_length _ _ _ _ _ _ (by simp) hprev hsnap
  · intro b hb
    exact hprev b hb

/-- One compositor step preserves the size invariant. -/
theorem processImage_inv (lsd : LogicalScreenDescriptor) (st : CompState)
    (img : TableBasedImage) (st' : CompState)
    (h : processImage lsd st img = .ok st')
    (hinv : CompStateInv lsd.width lsd.height st) :
    CompStateInv lsd.width lsd.height st' := by
  unfold processImage at h
  split at h
  · cases h
  · rename_i activeTable hat
    rw [ite_eq_iff] at h
    rcases h with ⟨_, h⟩ | ⟨_, h⟩
    · cases h
    · revert h
      split
      · intro h; cases h
      · intro h
        rw [ite_eq_iff] at h
        rcases h with ⟨_, h⟩ | ⟨_, h⟩
        · cases h
        · rw [ite_eq_iff] at h
          rcases h with ⟨_, h⟩ | ⟨_, h⟩
          · cases h
          · rw [Except.ok.injEq] at h
            rw [← h]
            exact composeFrame_inv _ _ _ _ _ hinv

/-- The compositor walk preserves the size invariant. -/
theorem compositeBlocks_inv (lsd : LogicalScreenDescriptor) (blocks : List DataType) :
    ∀ st st', compositeBlocks lsd blocks st = .ok st' →
      CompStateInv lsd.width lsd.height st → CompStateInv lsd.width lsd.height st' := by
  induction blocks with
  | nil =>
    intro st st' h hinv
    cases h
    exact hinv
  | cons b rest ih =>
    intro st st' h hinv
    cases b with
    | graphicControlExtensionType g =>
      simp only [compositeBlocks] at h
      exact ih _ _ h ⟨hinv.1, hinv.2.1, hinv.2.2⟩
    | tableBasedImageType img =>
      simp only [compositeBlocks] at h
      split at h
      · cases h
      · rename_i st1 hst1
        exact ih _ _ h (processImage_inv _ _ _ _ hst1 hinv)
    | applicationExtensionType e =>
      simp only [compositeBlocks] at h
      exact ih _ _ h hinv
    | commentExtensionType e =>
      simp only [compositeBlocks] at h
      exact ih _ _ h hinv
    | plainTextExtensionType e =>
      simp only [compositeBlocks] at h
      exact ih _ _ h hinv

/-- C9: whenever `load` succeeds, the returned `Gif` carries the logical
screen dimensions, at least one image frame, and every frame's color
buffer has exactly `width · height` entries. -/
theorem c9_load_shape (src : List Nat) (g : Gif) (h : load src = .ok g) :
    1 ≤ g.image_frames.length ∧
    ∀ f ∈ g.image_frames, f.colors.length = g.width * g.height := by
  unfold load at h
  split at h
  · cases h
  · rename_i r hr
    split at h
    · cases h
    · rename_i st hst
      split at h
      · cases h
      · rename_i hne
        cases h
        have hinv0 : CompStateInv r.logical_screen_descriptor.width
            r.logical_screen_descriptor.height (⟨none, [], none, none⟩ : CompState) := by
          refine ⟨?_, ?_, ?_⟩ <;> intro x hx <;> cases hx
        constructor
        · cases hf : st.frames with
          | nil => exact absurd (by simp [hf]) hne
          | cons a l => simp [hf]
        · intro f hf
          exact (compositeBlocks_inv _ _ _ _ hst hinv0).1 f hf

/-- Witness for C9: the minimal one-image GIF decodes to a 1×1 single-frame
`Gif` satisfying the shape invariants. -/
theorem c9_load_shape_witness :
    1 ≤ (Gif.mk 1 1 [⟨[⟨10, 20, 30⟩], 0⟩]).image_frames.length ∧
    ∀ f ∈ (Gif.mk 1 1 [⟨[⟨10, 20, 30⟩], 0⟩]).image_frames,
      f.colors.length = (Gif.mk 1 1 [⟨[⟨10, 20, 30⟩], 0⟩]).width *
        (Gif.mk 1 1 [⟨[⟨10, 20, 30⟩], 0⟩]).height :=
  c9_load_shape tinyGif (Gif.mk 1 1 [⟨[⟨10, 20, 30⟩], 0⟩]) (by decide)

/-- The head (with default) of a non-empty list is one of its elements. -/
theorem headD_mem {l : List Nat} (h : l ≠ []) : l.headD 0 ∈ l := by
  cases l with
  | nil => exact absurd rfl h
  | cons a t => simp

/-- A `getD` lookup that produces an `Indices` entry found it in the
table (the `Single 0` default is not an `Indices`). -/
theorem getD_indices_mem {table : List CodeValue} {i : Nat} {l : List Nat}
    (h : table.getD i (CodeValue.single 0) = CodeValue.indices l) :
    CodeValue.indices l ∈ table := by
  rw [List.getD_eq_getElem?_getD] at h
  cases hg : table[i]? with
  | none => rw [hg] at h; cases h
  | some v =>
    rw [hg] at h
    rw [Option.getD_some] at h
    rw [← h]
    exact List.getElem?_mem hg

/-- Concatenations of bounded index lists are bounded. -/
theorem mem_append_lt {n : Nat} {r1 r2 : List Nat} (h1 : ∀ x ∈ r1, x < n)
    (h2 : ∀ x ∈ r2, x < n) : ∀ x ∈ r1 ++ r2, x < n := by
  intro x hx
  rcases List.mem_append.mp hx with h | h
  · exact h1 x h
  · exact h2 x h

/-- The freshly reset dictionary is well-formed: its `Indices` entries are
exactly the singletons `[i]` for `i < n`. -/
theorem tableOk_reset (n : Nat) : TableOk n (Decompressor.reset n) := by
  intro l hl
  unfold Decompressor.reset at hl
  rcases List.mem_append.mp hl with h | h
  · obtain ⟨i, hi, hEq⟩ := List.mem_map.mp h
    cases hEq
    exact ⟨by simp, by simpa using List.mem_range.mp hi⟩
  · simp at h

/-- Appending a non-empty bounded entry preserves table well-formedness. -/
theorem tableOk_push {n : Nat} {table : List CodeValue} {entry : List Nat}
    (ht : TableOk n table) (hne : entry ≠ []) (hb : ∀ x ∈ entry, x < n) :
    TableOk n (table ++ [CodeValue.indices entry]) := by
  intro l hl
  rcases List.mem_append.mp hl with h | h
  · exact ht l h
  · have h := List.mem_singleton.mp h
    injection h with h
    subst h
    exact ⟨hne, hb⟩

/-- When the grow step pushes, the new table is the old one plus the entry
and the reader is untouched. -/
theorem Decompressor.growTable_grown {table : List CodeValue} {cs clear : Nat}
    {rs : CodeReader} {entry : List Nat} {t' : List CodeValue} {c' : Nat} {r' : CodeReader}
    (h : Decompressor.growTable table cs clear rs entry = .ok (.grown t' c' r')) :
    t' = table ++ [CodeValue.indices entry] ∧ r' = rs := by
  unfold Decompressor.growTable at h
  split at h
  · split at h
    · split at h
      · cases h
      · simp at h
    · simp only [Except.ok.injEq, GrowOutcome.grown.injEq] at h
      exact ⟨h.1.symm, h.2.2.symm⟩
  · simp only [Except.ok.injEq, GrowOutcome.grown.injEq] at h
    exact ⟨h.1.symm, h.2.2.symm⟩

/-- The main loop of `decompress_until_clear` preserves the table
invariant and only ever emits palette indices below the color-table
length. -/
theorem ducLoop_inv (n fuel : Nat) : ∀ (prev : Nat) (table : List CodeValue)
    (cs clear : Nat) (rs : CodeReader) (result : List Nat) (ls : LoopState),
    TableOk n table → (∀ x ∈ result, x < n) →
    Decompressor.ducLoop fuel prev table cs clear rs result = .ok ls →
    (∀ x ∈ ls.result, x < n) ∧ TableOk n ls.table := by
  induction fuel with
  | zero =>
    intro prev table cs clear rs result ls _ _ h
    cases h
  | succ fuel ih =>
    intro prev table cs clear rs result ls ht hr h
    unfold Decompressor.ducLoop at h
    split at h
    · cases h
      exact ⟨hr, ht⟩
    · rename_i current rs1 hread
      split at h
      · -- current < table.length
        split at h
        · -- table[current] is Indices inds
          rename_i inds heq
          have hm := ht _ (getD_indices_mem heq)
          have hr' : ∀ x ∈ result ++ inds, x < n := mem_append_lt hr hm.2
          split at h
          · -- table[prev] is Indices prevInds
            rename_i prevInds heqp
            have hmp := ht _ (getD_indices_mem heqp)
            have hkn : inds.headD 0 < n := hm.2 _ (headD_mem hm.1)
            have hbent : ∀ x ∈ prevInds ++ [inds.headD 0], x < n :=
              mem_append_lt hmp.2 (by intro x hx; rw [List.mem_singleton.mp hx]; exact hkn)
            dsimp only at h
            split at h
            · cases h
            · -- cleared
              cases h
              exact ⟨hr', ht⟩
            · -- grown
              rename_i t' c' rs2 heqg
              obtain ⟨ht', _⟩ := Decompressor.growTable_grown heqg
              subst ht'
              exact ih current _ c' clear rs2 _ ls
                (tableOk_push ht (by simp) hbent) hr' h
          · cases h
        · -- table[current] is Single c
          split at h
          · cases h
            exact ⟨hr, ht⟩
          · split at h
            · cases h
              exact ⟨hr, ht⟩
            · cases h
      · -- current ≥ table.length
        split at h
        · rename_i prevInds heqp
          have hmp := ht _ (getD_indices_mem heqp)
          have hkn : prevInds.headD 0 < n := hmp.2 _ (headD_mem hmp.1)
          have hbent : ∀ x ∈ prevInds ++ [prevInds.headD 0], x < n :=
            mem_append_lt hmp.2 (by intro x hx; rw [List.mem_singleton.mp hx]; exact hkn)
          have hr' : ∀ x ∈ result ++ (prevInds ++ [prevInds.headD 0]), x < n :=
            mem_append_lt hr hbent
          dsimp only at h
          split at h
          · cases h
          · -- cleared
            cases h
            exact ⟨hr', ht⟩
          · -- grown
            rename_i t' c' rs2 heqg
            obtain ⟨ht', _⟩ := Decompressor.growTable_grown heqg
            subst ht'
            exact ih current _ c' clear rs2 _ ls
              (tableOk_push ht (by simp) hbent) hr' h
        · cases h

/-- One round of `decompress_until_clear` preserves the invariant. -/
theorem decompressUntilClear_inv (n fuel : Nat) (table : List CodeValue) (cs clear : Nat)
    (rs : CodeReader) (result : List Nat) (ls : LoopState)
    (ht : TableOk n table) (hr : ∀ x ∈ result, x < n)
    (h : Decompressor.decompressUntilClear fuel table cs clear rs result = .ok ls) :
    (∀ x ∈ ls.result, x < n) ∧ TableOk n ls.table := by
  unfold Decompressor.decompressUntilClear at h
  split at h
  · cases h
    exact ⟨hr, ht⟩
  · rename_i current rs1 hread
    split at h
    · rename_i inds hg
      have hm := ht _ (List.getElem?_mem hg)
      exact ducLoop_inv n fuel current table cs clear rs1 _ ls ht
        (mem_append_lt hr hm.2) h
    · cases h

/-- The reset-and-continue outer loop only emits in-range indices. -/
theorem outerLoop_inv (n fuel : Nat) : ∀ (innerFuel m : Nat) (rs : CodeReader)
    (result idxs : List Nat), (∀ x ∈ result, x < n) →
    Decompressor.outerLoop fuel innerFuel n m rs result = .ok idxs →
    ∀ x ∈ idxs, x < n := by
  induction fuel with
  | zero =>
    intro innerFuel m rs result idxs _ h
    cases h
  | succ fuel ih =>
    intro innerFuel m rs result idxs hr h
    unfold Decompressor.outerLoop at h
    split at h
    · cases h
    · rename_i ls hls
      have hinv := decompressUntilClear_inv n innerFuel _ _ _ _ _ ls
        (tableOk_reset n) hr hls
      split at h
      · exact ih innerFuel m ls.rs ls.result idxs hinv.1 h
      · cases h
        exact hinv.1

/-- Every index list returned by `decompressIndices` is bounded by the
color-table length. -/
theorem decompressIndices_lt (data : List Nat) (n m : Nat) (idxs : List Nat)
    (h : Decompressor.decompressIndices data n m = .ok idxs) : ∀ x ∈ idxs, x < n := by
  unfold Decompressor.decompressIndices at h
  split at h
  · cases h
  · exact outerLoop_inv n _ _ m _ [] idxs (by intro x hx; cases hx) h

/-- C6: whenever decompression succeeds, every emitted palette index is
strictly below the color-table length, so the final index-to-color mapping
(`self.color_table[*i]`, rendered total with `getD`) never reads out of
bounds: the output is exactly the in-range indices mapped through the
table. -/
theorem c6_emitted_indices_in_range (data : List Nat) (ct : List Color) (m : Nat)
    (out : List Color) (h : Decompressor.decompress data ct m = .ok out) :
    ∃ idxs, Decompressor.decompressIndices data ct.length m = .ok idxs ∧
      (∀ i ∈ idxs, i < ct.length) ∧ out = idxs.map (fun i => ct.getD i ⟨0, 0, 0⟩) := by
  unfold Decompressor.decompress at h
  split at h
  · cases h
  · rename_i idxs hidx
    cases h
    exact ⟨idxs, hidx, decompressIndices_lt _ _ _ _ hidx, rfl⟩

/-- Witness for C6 on the truncated one-code stream: the emitted index 0 is
below the palette length 4. -/
theorem c6_emitted_indices_in_range_witness :
    ∃ idxs, Decompressor.decompressIndices [4] testPalette.length 2 = .ok idxs ∧
      (∀ i ∈ idxs, i < testPalette.length) ∧
      ([colorWhite] : List Color) = idxs.map (fun i => testPalette.getD i ⟨0, 0, 0⟩) :=
  c6_emitted_indices_in_range [4] testPalette 2 [colorWhite] (by decide)

/-- The low `w` bits of `y >>> s`, as a sum of stream-order bits. -/
theorem low_bits_sum (y s w : Nat) :
    (y >>> s) % 2 ^ w = ∑ i ∈ Finset.range w, (y >>> (s + i)) % 2 * 2 ^ i := by
  induction w with
  | zero => simp [Nat.mod_one]
  | succ w ih =>
    rw [Finset.sum_range_succ, ← ih]
    have hdiv : y >>> (s + w) = (y >>> s) / 2 ^ w := by
      rw [Nat.shiftRight_add, Nat.shiftRight_eq_div_pow]
    rw [Nat.mod_pow_succ, hdiv, Nat.mul_comm]

/-- Zero bits are worth zero. -/
theorem bitsValue_zero (data : List Nat) (p : Nat) : bitsValue data p 0 = 0 := by
  simp [bitsValue]

/-- Splitting a bit run: the first `a` bits plus the remaining `b` bits
shifted up by `a`. -/
theorem bitsValue_split (data : List Nat) (p a b : Nat) :
    bitsValue data p (a + b) = bitsValue data p a + 2 ^ a * bitsValue data (p + a) b := by
  unfold bitsValue
  rw [Finset.sum_range_add, Finset.mul_sum]
  congr 1
  refine Finset.sum_congr rfl ?_
  intro i _
  rw [← Nat.add_assoc, pow_add]
  ring

/-- A bit run inside one byte is the corresponding shifted-and-truncated
byte value. -/
theorem bitsValue_byte (data : List Nat) (index s w : Nat) (hsw : s + w ≤ 8) :
    bitsValue data (8 * index + s) w = (data.getD index 0 >>> s) % 2 ^ w := by
  rw [low_bits_sum]
  unfold bitsValue streamBit
  refine Finset.sum_congr rfl ?_
  intro i hi
  have hi' : i < w := Finset.mem_range.mp hi
  have h1 : (8 * index + s + i) / 8 = index := by omega
  have h2 : (8 * index + s + i) % 8 = s + i := by omega
  rw [h1, h2]

/-- Or-ing a shifted chunk into an accumulator with disjoint bits is plain
addition (and the `u16` truncation is vacuous below 16 bits). -/
theorem or_chunk (result chunk acc k : Nat) (hres : result < 2 ^ acc)
    (hchunk : chunk < 2 ^ k) (hbound : acc + k ≤ 16) :
    result ||| ((chunk <<< acc) % 65536) = result + 2 ^ acc * chunk := by
  have hlt : chunk <<< acc < 65536 := by
    rw [Nat.shiftLeft_eq]
    calc chunk * 2 ^ acc < 2 ^ k * 2 ^ acc :=
          Nat.mul_lt_mul_of_lt_of_le hchunk (Nat.le_refl _) (Nat.two_pow_pos acc)
      _ = 2 ^ (k + acc) := (pow_add 2 k acc).symm
      _ ≤ 2 ^ 16 := Nat.pow_le_pow_right (by omega) (by omega)
  rw [Nat.mod_eq_of_lt hlt, Nat.shiftLeft_eq, Nat.or_comm, Nat.mul_comm chunk (2 ^ acc),
    ← Nat.mul_add_lt_is_or hres chunk]
  exact Nat.add_comm _ _

/-- The accumulator stays below the next bit boundary. -/
theorem result_acc_bound {result chunk acc k : Nat} (hres : result < 2 ^ acc)
    (hchunk : chunk < 2 ^ k) : result + 2 ^ acc * chunk < 2 ^ (acc + k) := by
  have h1 : 2 ^ acc * (chunk + 1) = 2 ^ acc * chunk + 2 ^ acc := by ring
  calc result + 2 ^ acc * chunk < 2 ^ acc * (chunk + 1) := by omega
    _ ≤ 2 ^ acc * 2 ^ k := Nat.mul_le_mul_left _ (by omega)
    _ = 2 ^ (acc + k) := (pow_add 2 acc k).symm

/-- Exhausting the wanted bits stops the loop at the current position. -/
theorem readGo_zero (data : List Nat) (f acc result byte index : Nat) :
    CodeReader.readGo data (f + 1) 0 acc result byte index 8 = some (result, index, 8) := by
  simp [CodeReader.readGo]

/-- Contract of the `CodeReader::read` loop: with enough fuel and a
well-formed position it returns `none` exactly when fewer than `bits` bits
remain from the current position, and on success it adds the next `bits`
stream bits (LSB-first) at the accumulator position. -/
theorem readGo_spec (data : List Nat) : ∀ (fuel : Nat) (bits acc result byte index rb : Nat),
    bits < fuel → 1 ≤ rb → rb ≤ 8 → index < data.length →
    byte = data.getD index 0 >>> (8 - rb) →
    result < 2 ^ acc → acc + bits ≤ 12 →
    (CodeReader.readGo data fuel bits acc result byte index rb = none ↔
      rb + 8 * (data.length - index - 1) < bits) ∧
    (∀ r i' rb', CodeReader.readGo data fuel bits acc result byte index rb = some (r, i', rb') →
      r = result + 2 ^ acc * bitsValue data (8 * index + (8 - rb)) bits) := by
  intro fuel
  induction fuel with
  | zero =>
    intro bits acc result byte index rb hfuel
    omega
  | succ fuel ih =>
    intro bits acc result byte index rb hfuel hrb1 hrb8 hidx hbyte hres hacc
    have hmask : (if rb = 8 then (255 : Nat) else 2 ^ rb - 1) = 2 ^ rb - 1 := by
      split
      · subst rb; rfl
      · rfl
    have hchunklt : byte % 2 ^ rb < 2 ^ rb := Nat.mod_lt _ (Nat.two_pow_pos rb)
    have hchunkval : byte % 2 ^ rb = bitsValue data (8 * index + (8 - rb)) rb := by
      rw [bitsValue_byte data index (8 - rb) rb (by omega), hbyte]
    by_cases hcons : rb ≤ bits
    · -- consuming branch
      have hbody : CodeReader.readGo data (fuel + 1) bits acc result byte index rb =
          (if index + 1 < data.length then
            CodeReader.readGo data fuel (bits - rb) (acc + rb)
              (result ||| (((byte &&& (2 ^ rb - 1)) <<< acc) % 65536))
              (data.getD (index + 1) 0) (index + 1) 8
          else if 0 < bits - rb then
            none
          else
            CodeReader.readGo data fuel (bits - rb) (acc + rb)
              (result ||| (((byte &&& (2 ^ rb - 1)) <<< acc) % 65536)) byte (index + 1) 8) := by
        conv =>
          lhs
          rw [CodeReader.readGo]
        rw [if_pos hcons, hmask]
      have hor : result ||| (((byte &&& (2 ^ rb - 1)) <<< acc) % 65536) =
          result + 2 ^ acc * (byte % 2 ^ rb) := by
        rw [Nat.and_pow_two_sub_one_eq_mod]
        exact or_chunk result (byte % 2 ^ rb) acc rb hres hchunklt (by omega)
      have hres' : result ||| (((byte &&& (2 ^ rb - 1)) <<< acc) % 65536) < 2 ^ (acc + rb) := by
        rw [hor]
        exact result_acc_bound hres hchunklt
      by_cases hidx2 : index + 1 < data.length
      · -- next byte exists: recurse
        have hih := ih (bits - rb) (acc + rb)
          (result ||| (((byte &&& (2 ^ rb - 1)) <<< acc) % 65536))
          (data.getD (index + 1) 0) (index + 1) 8
          (by omega) (by omega) (by omega) hidx2
          (by simp) hres' (by omega)
        rw [hbody, if_pos hidx2]
        constructor
        · rw [hih.1]
          omega
        · intro r i' rb' hr
          have hv := hih.2 r i' rb' hr
          have hsplit : bitsValue data (8 * index + (8 - rb)) bits =
              bitsValue data (8 * index + (8 - rb)) rb +
                2 ^ rb * bitsValue data (8 * (index + 1) + (8 - 8)) (bits - rb) := by
            have hb : bits = rb + (bits - rb) := by omega
            have hp : 8 * index + (8 - rb) + rb = 8 * (index + 1) + (8 - 8) := by omega
            calc bitsValue data (8 * index + (8 - rb)) bits
                = bitsValue data (8 * index + (8 - rb)) (rb + (bits - rb)) := by rw [← hb]
              _ = bitsValue data (8 * index + (8 - rb)) rb +
                  2 ^ rb * bitsValue data (8 * index + (8 - rb) + rb) (bits - rb) :=
                  bitsValue_split data _ rb (bits - rb)
              _ = _ := by rw [hp]
          rw [hv, hor, hchunkval, hsplit, pow_add]
          ring
      · -- stream boundary
        rw [hbody, if_neg hidx2]
        by_cases hbz : 0 < bits - rb
        · rw [if_pos hbz]
          constructor
          · constructor
            · intro _
              omega
            · intro _
              rfl
          · intro r i' rb' hr
            cases hr
        · rw [if_neg hbz]
          have hbits : bits = rb := by omega
          have hfuel1 : 1 ≤ fuel := by omega
          obtain ⟨f, rfl⟩ : ∃ f, fuel = f + 1 := ⟨fuel - 1, by omega⟩
          have hz : bits - rb = 0 := by omega
          rw [hz, readGo_zero]
          constructor
          · constructor
            · intro hcontra
              cases hcontra
            · intro hcontra
              omega
          · intro r i' rb' hr
            rw [Option.some.injEq] at hr
            have hr1 : r = result ||| (((byte &&& (2 ^ rb - 1)) <<< acc) % 65536) := by
              have := congrArg Prod.fst hr
              simpa using this.symm
            rw [hr1, hor, hchunkval, hbits]
    · -- final partial chunk (bits < rb)
      have hbody : CodeReader.readGo data (fuel + 1) bits acc result byte index rb =
          (if bits ≠ 0 then
            some (result ||| (((byte &&& (2 ^ bits - 1)) <<< acc) % 65536), index, rb - bits)
          else
            some (result, index, rb)) := by
        conv =>
          lhs
          rw [CodeReader.readGo]
        rw [if_neg hcons]
      rw [hbody]
      by_cases hbz : bits ≠ 0
      · rw [if_pos hbz]
        have hchunklt2 : byte % 2 ^ bits < 2 ^ bits := Nat.mod_lt _ (Nat.two_pow_pos bits)
        have hor2 : result ||| (((byte &&& (2 ^ bits - 1)) <<< acc) % 65536) =
            result + 2 ^ acc * (byte % 2 ^ bits) := by
          rw [Nat.and_pow_two_sub_one_eq_mod]
          exact or_chunk result (byte % 2 ^ bits) acc bits hres hchunklt2 (by omega)
        constructor
        · constructor
          · intro hcontra
            cases hcontra
          · intro hlt
            omega
        · intro r i' rb' hr
          rw [Option.some.injEq] at hr
          have hr1 : r = result ||| (((byte &&& (2 ^ bits - 1)) <<< acc) % 65536) := by
            have := congrArg Prod.fst hr
            simpa using this.symm
          have hbv : byte % 2 ^ bits = bitsValue data (8 * index + (8 - rb)) bits := by
            rw [bitsValue_byte data index (8 - rb) bits (by omega), hbyte]
          rw [hr1, hor2, hbv]
      · rw [if_neg hbz]
        have hb0 : bits = 0 := by omega
        constructor
        · constructor
          · intro hcontra
            cases hcontra
          · intro hlt
            omega
        · intro r i' rb' hr
          rw [Option.some.injEq] at hr
          have hr1 : r = result := by
            have := congrArg Prod.fst hr
            simpa using this.symm
          rw [hr1, hb0, bitsValue_zero]
          simp

/-- C4: for every byte sequence and width `1..=12`, `CodeReader::read`
returns `None` exactly when fewer than `width` bits remain unconsumed, and
when it returns `Some` the value is the next `width` bits of the stream
taken LSB-first within each byte and spanning bytes low-byte-first (stated
for any well-formed reader position, in particular the initial one). -/
theorem c4_read_contract (s : CodeReader) (w : Nat) (h1 : 1 ≤ w) (h12 : w ≤ 12)
    (hwf : s.WF) :
    (CodeReader.read w s = none ↔ s.bitsRemaining < w) ∧
    (∀ v s', CodeReader.read w s = some (v, s') → v = bitsValue s.data s.consumed w) := by
  obtain ⟨hrb1, hrb8, hbytes⟩ := hwf
  unfold CodeReader.read CodeReader.bitsRemaining CodeReader.consumed
  by_cases hidx : s.data.length ≤ s.index
  · rw [if_pos hidx, if_pos hidx]
    constructor
    · constructor
      · intro _
        omega
      · intro _
        rfl
    · intro v s' hv
      cases hv
  · rw [if_neg hidx, if_neg hidx]
    have hspec := readGo_spec s.data (w + 1) w 0 0
      (s.data.getD s.index 0 >>> (8 - s.remaining_bits)) s.index s.remaining_bits
      (by omega) hrb1 hrb8 (by omega) rfl (by norm_num) (by omega)
    constructor
    · cases hg : CodeReader.readGo s.data (w + 1) w 0 0
          (s.data.getD s.index 0 >>> (8 - s.remaining_bits)) s.index s.remaining_bits with
      | none =>
        constructor
        · intro _
          exact hspec.1.mp hg
        · intro _
          rfl
      | some t =>
        obtain ⟨r, i, rb⟩ := t
        constructor
        · intro hcontra
          dsimp only at hcontra
          cases hcontra
        · intro hlt
          have hnone := hspec.1.mpr hlt
          rw [hg] at hnone
          cases hnone
    · cases hg : CodeReader.readGo s.data (w + 1) w 0 0
          (s.data.getD s.index 0 >>> (8 - s.remaining_bits)) s.index s.remaining_bits with
      | none =>
        intro v s' hv
        cases hv
      | some t =>
        obtain ⟨r, i, rb⟩ := t
        intro v s' hv
        dsimp only at hv
        rw [Option.some.injEq] at hv
        have hvr : v = r := by
          have := congrArg Prod.fst hv
          simpa using this.symm
        have hval := hspec.2 r i rb hg
        rw [hvr, hval]
        simp

/-- Witness for C4 at the reference bit-reader test data and width 3: the
contract holds at the initial position. -/
theorem c4_read_contract_witness :
    (CodeReader.read 3 (CodeReader.new [0x5D, 0xF5]) = none ↔
      (CodeReader.new [0x5D, 0xF5]).bitsRemaining < 3) ∧
    (∀ v s', CodeReader.read 3 (CodeReader.new [0x5D, 0xF5]) = some (v, s') →
      v = bitsValue (CodeReader.new [0x5D, 0xF5]).data
        (CodeReader.new [0x5D, 0xF5]).consumed 3) :=
  c4_read_contract (CodeReader.new [0x5D, 0xF5]) 3 (by decide) (by decide)
    ⟨by decide, by decide, by decide⟩

end Giffy
